import Mathlib

/-!
Verification of the tenant-scoped authorization core of `django-tenant-authx`.

The embedding models the relational store (tenants, memberships, roles,
permissions) as lists of rows, Python strings as Lean `String` (or `List Char`
for the code-point surgery done by the subdomain resolver), raised-and-caught
exceptions as `Option`/`Except`, and Django ORM queries as list traversals with
the relational join semantics of the corresponding querysets.
-/

namespace TenantAuthx

/-- Row of `tenant_authx.models.Tenant`: `slug`, optional `domain`,
`is_active`; the UUID primary key is modelled as a `Nat`. -/
structure Tenant where
  id : Nat
  slug : String
  domain : Option String
  is_active : Bool
deriving DecidableEq, Repr

/-- The authenticated-user object consumed by the permission engine: only the
`is_superuser` and `is_authenticated` flags and the primary key matter. -/
structure User where
  id : Nat
  is_superuser : Bool
  is_authenticated : Bool
deriving DecidableEq, Repr

/-- Row of `tenant_authx.models.TenantMembership`: links one user to one
tenant, carries the many-to-many role assignment and the `is_active` flag. -/
structure TenantMembership where
  id : Nat
  user_id : Nat
  tenant_id : Nat
  role_ids : List Nat
  is_active : Bool
deriving DecidableEq, Repr

/-- Row of `tenant_authx.models.Role`: tenant-scoped, carries the
many-to-many permission assignment and the `is_active` flag. -/
structure Role where
  id : Nat
  tenant_id : Nat
  is_active : Bool
  perm_ids : List Nat
deriving DecidableEq, Repr

/-- Row of `tenant_authx.models.Permission`: tenant-scoped codename. -/
structure Permission where
  id : Nat
  tenant_id : Nat
  codename : String
deriving DecidableEq, Repr

/-- The durable store: the four tables the permission engine queries. -/
structure Store where
  tenants : List Tenant
  memberships : List TenantMembership
  roles : List Role
  permissions : List Permission
deriving Repr

/-- The configuration switches read by `tenant_authx.conf.tenant_authx_settings`
that the permission engine consults. -/
structure Settings where
  SUPERUSER_BYPASS : Bool
  AUDIT_ENABLED : Bool
deriving DecidableEq, Repr

/-- `TenantMembership.objects.get(user=..., tenant=..., is_active=True)` with
`DoesNotExist` mapped to `none`.  The table's `unique_together (user, tenant)`
constraint makes the matching row unique when the store is well formed. -/
def getActiveMembership (st : Store) (u : User) (t : Tenant) : Option TenantMembership :=
  st.memberships.find? (fun m => m.user_id == u.id && m.tenant_id == t.id && m.is_active)

/-- `TenantMembership.has_permission`: the queryset
`self.roles.filter(is_active=True, permissions__codename=cn).exists()`,
read relationally: some role row assigned to the membership is active and is
joined to a permission row with the requested codename. -/
def TenantMembership.has_permission (st : Store) (m : TenantMembership) (cn : String) : Bool :=
  st.roles.any (fun r =>
    m.role_ids.contains r.id && r.is_active &&
      st.permissions.any (fun p => r.perm_ids.contains p.id && p.codename == cn))

/-- `TenantMembership.get_permissions`: codenames reachable through the
membership's active roles, deduplicated (`.distinct()`), with the `None`
entries produced by permission-less roles removed (`- {None}`) — a role with
no assigned permission contributes nothing to the join. -/
def TenantMembership.get_permissions (st : Store) (m : TenantMembership) : Finset String :=
  ((st.roles.filter (fun r => m.role_ids.contains r.id && r.is_active)).flatMap
    (fun r => (st.permissions.filter (fun p => r.perm_ids.contains p.id)).map
      Permission.codename)).toFinset

/-- `PermissionChecker.check_permission`.  The `validate_tenant_context` call
raises for an absent or inactive tenant and the method catches every exception
and returns `False`; a pre-fetched membership, when supplied, is used as-is,
otherwise the active membership row is looked up (`DoesNotExist` gives
`False`). -/
def check_permission (s : Settings) (st : Store) (u : User) (tenant : Option Tenant)
    (cn : String) (membership : Option TenantMembership) : Bool :=
  if s.SUPERUSER_BYPASS && u.is_superuser then
    true
  else
    match tenant with
    | none => false
    | some t =>
      if !t.is_active then false
      else
        match membership with
        | some m => m.has_permission st cn
        | none =>
          match getActiveMembership st u t with
          | some m => m.has_permission st cn
          | none => false

/-- `PermissionChecker.get_user_permissions`: superuser bypass enumerates every
permission codename owned by the tenant; otherwise the active membership's
permission set, or the empty set when no active membership exists. -/
def get_user_permissions (s : Settings) (st : Store) (u : User) (t : Tenant)
    (membership : Option TenantMembership) : Finset String :=
  if s.SUPERUSER_BYPASS && u.is_superuser then
    ((st.permissions.filter (fun p => p.tenant_id == t.id)).map Permission.codename).toFinset
  else
    match membership with
    | some m => m.get_permissions st
    | none =>
      match getActiveMembership st u t with
      | some m => m.get_permissions st
      | none => ∅

/-- `PermissionChecker.has_any_permission`: a loop over the codenames that
returns `True` at the first granted check. -/
def has_any_permission (s : Settings) (st : Store) (u : User) (tenant : Option Tenant)
    (membership : Option TenantMembership) (perms : List String) : Bool :=
  perms.any (fun p => check_permission s st u tenant p membership)

/-- `PermissionChecker.has_all_permissions`: a loop over the codenames that
returns `False` at the first denied check. -/
def has_all_permissions (s : Settings) (st : Store) (u : User) (tenant : Option Tenant)
    (membership : Option TenantMembership) (perms : List String) : Bool :=
  perms.all (fun p => check_permission s st u tenant p membership)

/-- One structured audit event as passed to `tenant_authx.utils.audit_log`:
the event name, the optional permission codename, and the outcome flag. -/
structure AuditEvent where
  event : String
  permission : Option String
  success : Bool
deriving DecidableEq, Repr

/-- `tenant_authx.utils.audit_log`: emits one event to the audit sink, or
nothing when `AUDIT_ENABLED` is off (the function returns early). -/
def audit_log (s : Settings) (event : String) (permission : Option String)
    (success : Bool) : List AuditEvent :=
  if s.AUDIT_ENABLED then [⟨event, permission, success⟩] else []

/-- `PermissionChecker.check_permission` paired with the audit events the call
emits: the method body contains no `audit_log` call, so the event list is
empty. -/
def check_permissionEv (s : Settings) (st : Store) (u : User) (tenant : Option Tenant)
    (cn : String) (membership : Option TenantMembership) : Bool × List AuditEvent :=
  (check_permission s st u tenant cn membership, [])

/-- `PermissionChecker.has_any_permission` with its audit trace: the loop calls
`check_permission` directly and returns at the first granted check. -/
def has_any_permissionEv (s : Settings) (st : Store) (u : User) (tenant : Option Tenant)
    (membership : Option TenantMembership) : List String → Bool × List AuditEvent
  | [] => (false, [])
  | p :: ps =>
    match check_permissionEv s st u tenant p membership with
    | (r, ev) =>
      if r then (true, ev)
      else
        match has_any_permissionEv s st u tenant membership ps with
        | (r2, evs) => (r2, ev ++ evs)

/-- `PermissionChecker.has_all_permissions` with its audit trace: the loop
calls `check_permission` directly and returns at the first denied check. -/
def has_all_permissionsEv (s : Settings) (st : Store) (u : User) (tenant : Option Tenant)
    (membership : Option TenantMembership) : List String → Bool × List AuditEvent
  | [] => (true, [])
  | p :: ps =>
    match check_permissionEv s st u tenant p membership with
    | (r, ev) =>
      if r then
        match has_all_permissionsEv s st u tenant membership ps with
        | (r2, evs) => (r2, ev ++ evs)
      else (false, ev)

/-- `tenant_authx.permissions.TenantUser`: one (user, tenant) pair plus the
three per-instance caches initialised to `None` by `__init__`. -/
structure TenantUser where
  user : User
  tenant : Tenant
  permission_cache : Option (Finset String)
  membership_cache : Option TenantMembership
  is_member_cache : Option Bool

/-- `TenantUser.__init__`: all caches start out `None`. -/
def TenantUser.init (u : User) (t : Tenant) : TenantUser :=
  ⟨u, t, none, none, none⟩

/-- The `TenantUser.membership` property: fetch on first access and remember
the result; a `None` fetch result leaves the cache slot `None` (so a
non-member is re-fetched, exactly as in the Python `is None` test). -/
def TenantUser.membership (tu : TenantUser) (st : Store) :
    Option TenantMembership × TenantUser :=
  match tu.membership_cache with
  | some m => (some m, tu)
  | none =>
    match getActiveMembership st tu.user tu.tenant with
    | some m => (some m, { tu with membership_cache := some m })
    | none => (none, tu)

/-- The membership value every `TenantUser` method observes against a fixed
store: the cached row when present, the live lookup otherwise. -/
def TenantUser.membershipVal (tu : TenantUser) (st : Store) : Option TenantMembership :=
  match tu.membership_cache with
  | some m => some m
  | none => getActiveMembership st tu.user tu.tenant

/-- `TenantUser.has_perm`: delegate to `check_permission` with the memoized
membership, then log exactly one `permission_check` audit event tagged with
the codename and the outcome. -/
def TenantUser.has_perm (tu : TenantUser) (s : Settings) (st : Store) (perm : String) :
    Bool × List AuditEvent × TenantUser :=
  match tu.membership st with
  | (m, tu₁) =>
    let result := check_permission s st tu.user (some tu.tenant) perm m
    (result, audit_log s ("permission_check") (some perm) result, tu₁)

/-- `TenantUser.has_perms`: `all(self.has_perm(p) for p in perm_list)` — the
generator short-circuits at the first denied check, and each evaluated check
goes through `has_perm`. -/
def TenantUser.has_perms (s : Settings) (st : Store) :
    TenantUser → List String → Bool × List AuditEvent × TenantUser
  | tu, [] => (true, [], tu)
  | tu, p :: ps =>
    match tu.has_perm s st p with
    | (r, ev, tu₁) =>
      if r then
        match TenantUser.has_perms s st tu₁ ps with
        | (r2, evs, tu₂) => (r2, ev ++ evs, tu₂)
      else (false, ev, tu₁)

/-- `TenantUser.get_all_permissions`: compute through
`PermissionChecker.get_user_permissions` on first call and memoize; a cached
set (even the empty set) is returned untouched afterwards. -/
def TenantUser.get_all_permissions (tu : TenantUser) (s : Settings) (st : Store) :
    Finset String × TenantUser :=
  match tu.permission_cache with
  | some c => (c, tu)
  | none =>
    match tu.membership st with
    | (m, tu₁) =>
      let c := get_user_permissions s st tu.user tu.tenant m
      (c, { tu₁ with permission_cache := some c })

/-- `TenantMembership.add_role`: reject a role owned by a different tenant
with a `ValidationError`, otherwise add it to the many-to-many set
(`.add` is a no-op on an already-assigned role). -/
def TenantMembership.add_role (m : TenantMembership) (r : Role) :
    Except String TenantMembership :=
  if r.tenant_id ≠ m.tenant_id then
    Except.error ("Role belongs to a different tenant")
  else
    Except.ok { m with role_ids :=
      if m.role_ids.contains r.id then m.role_ids else m.role_ids ++ [r.id] }

/-- Effect of `TenantMembership.add_role` on the stored row: a raised
`ValidationError` aborts before `self.roles.add`, leaving the row unchanged. -/
def TenantMembership.applyAddRole (m : TenantMembership) (r : Role) : TenantMembership :=
  match m.add_role r with
  | Except.ok m2 => m2
  | Except.error _ => m

/-- `Role.add_permission`: reject a permission owned by a different tenant
with a `ValidationError`, otherwise add it to the many-to-many set. -/
def Role.add_permission (r : Role) (p : Permission) : Except String Role :=
  if p.tenant_id ≠ r.tenant_id then
    Except.error ("Permission belongs to a different tenant")
  else
    Except.ok { r with perm_ids :=
      if r.perm_ids.contains p.id then r.perm_ids else r.perm_ids ++ [p.id] }

/-- Effect of `Role.add_permission` on the stored row: a raised
`ValidationError` aborts before `self.permissions.add`, leaving the row
unchanged. -/
def Role.applyAddPermission (r : Role) (p : Permission) : Role :=
  match r.add_permission p with
  | Except.ok r2 => r2
  | Except.error _ => r

/-- Python `str.lower()`: code-point-wise lowercasing. -/
def pyLower (s : String) : String := String.mk (s.data.map Char.toLower)

/-- `Tenant.clean`: normalize slug and domain to lowercase; the Python
truthiness guards skip empty strings and an absent domain. -/
def Tenant.clean (t : Tenant) : Tenant :=
  let t1 := if t.slug ≠ "" then { t with slug := pyLower t.slug } else t
  match t1.domain with
  | some d => if d ≠ "" then { t1 with domain := some (pyLower d) } else t1
  | none => t1

/-- `Tenant.save`: the model defines no `save` override, so Django's
`Model.save` runs, which does not invoke `clean`/`full_clean` (contrast
`Permission.save`, which calls `self.full_clean()`); the instance is stored
exactly as it is. -/
def Tenant.save (t : Tenant) : Tenant := t

/-- Python `str.lower()` on a host modelled as its code-point sequence. -/
def lowerStr (s : List Char) : List Char := s.map Char.toLower

/-- Python `s.split(".")` on a code-point sequence: the list of dot-separated
segments (never empty; adjacent dots give empty segments). -/
def splitOnDot : List Char → List (List Char)
  | [] => [[]]
  | c :: cs =>
    if c = '.' then [] :: splitOnDot cs
    else
      match splitOnDot cs with
      | [] => [[c]]
      | h :: t => (c :: h) :: t

/-- Port stripping in the resolvers: `host.split(":")[0]` when a colon is
present, the host unchanged otherwise — in both cases the longest
colon-free leading segment. -/
def stripPort (host : List Char) : List Char := host.takeWhile (fun c => c ≠ ':')

/-- Failure modes of tenant resolution, with the identifier the exception
records for diagnostics. -/
inductive ResolveErr where
  | notFound (identifier : List Char)
  | inactive (identifier : List Char)
deriving DecidableEq, Repr

/-- `SubdomainTenantResolver._extract_subdomain`: lowercase both host and
base domain, require the host to end with `.{base}`, cut that suffix off,
keep only the leftmost dot-separated label of the remainder, and map an
empty remainder to `None`. -/
def extract_subdomain (base_domain host : List Char) : Option (List Char) :=
  let base := lowerStr base_domain
  let h := lowerStr host
  if ('.' :: base).isSuffixOf h then
    let sub := h.take (h.length - (base.length + 1))
    let sub2 := if sub.contains '.' then (splitOnDot sub).headD [] else sub
    if sub2 = [] then none else some sub2
  else none

/-- `BaseTenantResolver.get_tenant_by_slug`:
`Tenant.objects.get(slug=slug.lower())` with `DoesNotExist` mapped to
`TenantNotFoundError` and an inactive hit mapped to `TenantInactiveError`. -/
def get_tenant_by_slug (st : Store) (slug : List Char) : Except ResolveErr Tenant :=
  match st.tenants.find? (fun t => t.slug.data == lowerStr slug) with
  | none => Except.error (ResolveErr.notFound slug)
  | some t =>
    if !t.is_active then Except.error (ResolveErr.inactive slug)
    else Except.ok t

/-- `SubdomainTenantResolver.resolve`: strip the port, extract the subdomain,
raise `TenantNotFoundError` (recording the stripped host) when there is none,
otherwise look the slug up. -/
def subdomain_resolve (st : Store) (base_domain host0 : List Char) :
    Except ResolveErr Tenant :=
  let host := stripPort host0
  match extract_subdomain base_domain host with
  | none => Except.error (ResolveErr.notFound host)
  | some sub => get_tenant_by_slug st sub

/-- The request object as the resolution pipeline sees it: the path (matched
against exemption patterns) and the host. -/
structure Request where
  path : String
  host : List Char

/-- `TenantResolutionMiddleware._is_exempt`: the path matches at least one
compiled exemption pattern (each compiled regex's `match` is modelled as a
predicate on the path). -/
def is_exempt (patterns : List (String → Bool)) (path : String) : Bool :=
  patterns.any (fun p => p path)

/-- What a custom not-found handler may do: return a response directly, or
return a value to store in the request's tenant slot. -/
inductive HandlerResult where
  | response
  | value (t : Option Tenant)

/-- The configured `TENANT_NOT_FOUND_HANDLER`: re-raise, substitute `None`,
or dispatch to a custom handler. -/
inductive NotFoundHandler where
  | reraise
  | substituteNone
  | custom (f : Request → ResolveErr → HandlerResult)

/-- Outcome of one pass through `TenantResolutionMiddleware.__call__`: the
request proceeds to `get_response` with the given tenant slot, or a custom
handler's response short-circuits, or the resolution error propagates. -/
inductive MWOutcome where
  | proceed (tenant : Option Tenant)
  | shortCircuit
  | raised (e : ResolveErr)

/-- Result of the resolution stage together with how many times the resolver
was invoked during the call. -/
structure MWResult where
  outcome : MWOutcome
  resolverCalls : Nat

/-- `TenantResolutionMiddleware.__call__`: default the tenant slot to `None`;
skip resolution entirely on an exempt path; otherwise invoke the resolver
exactly once at its single call site, attaching the tenant on success and
routing a resolution failure through the configured handler. -/
def middleware_call (patterns : List (String → Bool))
    (resolver : Request → Except ResolveErr Tenant) (handler : NotFoundHandler)
    (req : Request) : MWResult :=
  if is_exempt patterns req.path then
    ⟨MWOutcome.proceed none, 0⟩
  else
    match resolver req with
    | Except.ok t => ⟨MWOutcome.proceed (some t), 1⟩
    | Except.error e =>
      match handler with
      | NotFoundHandler.reraise => ⟨MWOutcome.raised e, 1⟩
      | NotFoundHandler.substituteNone => ⟨MWOutcome.proceed none, 1⟩
      | NotFoundHandler.custom f =>
        match f req e with
        | HandlerResult.response => ⟨MWOutcome.shortCircuit, 1⟩
        | HandlerResult.value t => ⟨MWOutcome.proceed t, 1⟩

/-- Claim C1: with the superuser-bypass configuration enabled and the user
flagged superuser, `PermissionChecker.check_permission` returns `true` for
every store, every tenant slot (present and active, present but inactive, or
absent), every codename, and every pre-fetched membership; since the result is
`true` for all of these uniformly, neither a membership lookup nor a
tenant-active check can influence the decision. -/
theorem check_permission_superuser_bypass (s : Settings) (st : Store) (u : User)
    (tenant : Option Tenant) (cn : String) (membership : Option TenantMembership)
    (hb : s.SUPERUSER_BYPASS = true) (hsu : u.is_superuser = true) :
    check_permission s st u tenant cn membership = true := by
  simp [check_permission, hb, hsu]

/-- Witness for claim C1: a superuser with no membership row anywhere, an
inactive tenant, and bypass enabled is still granted. -/
theorem check_permission_superuser_bypass_witness :
    ((⟨true, true⟩ : Settings).SUPERUSER_BYPASS = true
      ∧ (⟨7, true, true⟩ : User).is_superuser = true)
    ∧ check_permission ⟨true, true⟩ ⟨[], [], [], []⟩ ⟨7, true, true⟩
        (some ⟨1, "acme", none, false⟩) ("orders.view_order") none = true :=
  ⟨⟨rfl, rfl⟩,
    check_permission_superuser_bypass ⟨true, true⟩ ⟨[], [], [], []⟩ ⟨7, true, true⟩
      (some ⟨1, "acme", none, false⟩) ("orders.view_order") none rfl rfl⟩

/-- Claim C10: the all-mode queries over an empty codename list grant
vacuously (`has_all_permissions` and `TenantUser.has_perms` on `[]` return
`true` for every user, tenant, and store — members or not), while the
any-mode query over an empty list returns `false`. -/
theorem empty_permission_list_queries (s : Settings) (st : Store) (u : User)
    (tenant : Option Tenant) (membership : Option TenantMembership) (tu : TenantUser) :
    has_all_permissions s st u tenant membership [] = true
    ∧ has_any_permission s st u tenant membership [] = false
    ∧ (TenantUser.has_perms s st tu []).1 = true :=
  ⟨rfl, rfl, rfl⟩

/-- Claim C9: on one `TenantUser` instance a second `get_all_permissions`
call returns exactly the first call's result even against a different store
(the per-instance cache is consulted), and a freshly constructed instance's
first call computes from the store it is given. -/
theorem get_all_permissions_memoized (s : Settings) (u : User) (t : Tenant)
    (st₁ st₂ : Store) :
    ((((TenantUser.init u t).get_all_permissions s st₁).2.get_all_permissions s st₂).1
      = ((TenantUser.init u t).get_all_permissions s st₁).1)
    ∧ (((TenantUser.init u t).get_all_permissions s st₁).1
      = get_user_permissions s st₁ u t (getActiveMembership st₁ u t)) := by
  constructor
  · cases h : getActiveMembership st₁ u t <;>
      simp [TenantUser.init, TenantUser.get_all_permissions, TenantUser.membership, h]
  · cases h : getActiveMembership st₁ u t <;>
      simp [TenantUser.init, TenantUser.get_all_permissions, TenantUser.membership, h]

/-- Claim C8: a request whose path matches a configured exemption pattern
passes through the resolution stage without any resolver invocation and with
the tenant slot left `None`; a request whose path matches no pattern invokes
the resolver exactly once, whatever the resolver and failure handler do. -/
theorem exemption_short_circuit (patterns : List (String → Bool))
    (resolver : Request → Except ResolveErr Tenant) (handler : NotFoundHandler)
    (req : Request) :
    (is_exempt patterns req.path = true →
      middleware_call patterns resolver handler req = ⟨MWOutcome.proceed none, 0⟩)
    ∧ (is_exempt patterns req.path = false →
      (middleware_call patterns resolver handler req).resolverCalls = 1) := by
  constructor
  · intro h
    simp [middleware_call, h]
  · intro h
    simp only [middleware_call, h, Bool.false_eq_true, if_false]
    cases resolver req with
    | ok t => rfl
    | error e =>
      cases handler with
      | reraise => rfl
      | substituteNone => rfl
      | custom f => cases hf : f req e <;> simp [hf]

/-- Witness for claim C8: with the single exemption pattern matching exactly
the path `/admin/`, an `/admin/` request proceeds with no tenant and zero
resolver calls, and an `/app/` request invokes the resolver exactly once. -/
theorem exemption_short_circuit_witness :
    (is_exempt [fun p => p == ("/admin/")] ("/admin/") = true
      ∧ middleware_call [fun p => p == ("/admin/")]
          (fun _ => Except.error (ResolveErr.notFound []))
          NotFoundHandler.reraise ⟨"/admin/", []⟩ = ⟨MWOutcome.proceed none, 0⟩)
    ∧ (is_exempt [fun p => p == ("/admin/")] ("/app/") = false
      ∧ (middleware_call [fun p => p == ("/admin/")]
          (fun _ => Except.error (ResolveErr.notFound []))
          NotFoundHandler.reraise ⟨"/app/", []⟩).resolverCalls = 1) :=
  ⟨⟨by decide,
    (exemption_short_circuit [fun p => p == ("/admin/")]
      (fun _ => Except.error (ResolveErr.notFound []))
      NotFoundHandler.reraise ⟨"/admin/", []⟩).1 (by decide)⟩,
   ⟨by decide,
    (exemption_short_circuit [fun p => p == ("/admin/")]
      (fun _ => Except.error (ResolveErr.notFound []))
      NotFoundHandler.reraise ⟨"/app/", []⟩).2 (by decide)⟩⟩

/-- Claim C4: assigning a role to a membership of a different tenant and
assigning a permission to a role of a different tenant both fail with a
validation error, and in each failure case the target's many-to-many set is
left unchanged. -/
theorem cross_tenant_assignment_rejected (m : TenantMembership) (r : Role)
    (ro : Role) (p : Permission)
    (h1 : r.tenant_id ≠ m.tenant_id) (h2 : p.tenant_id ≠ ro.tenant_id) :
    ((∃ e, m.add_role r = Except.error e) ∧ m.applyAddRole r = m)
    ∧ ((∃ e, ro.add_permission p = Except.error e) ∧ ro.applyAddPermission p = ro) := by
  refine ⟨⟨⟨("Role belongs to a different tenant"), ?_⟩, ?_⟩,
          ⟨⟨("Permission belongs to a different tenant"), ?_⟩, ?_⟩⟩ <;>
    simp [TenantMembership.add_role, Role.add_permission,
      TenantMembership.applyAddRole, Role.applyAddPermission, h1, h2]

/-- Witness for claim C4: a role of tenant 2 cannot be added to a membership
in tenant 1, and a permission of tenant 2 cannot be added to a role of
tenant 1; both rows keep their sets. -/
theorem cross_tenant_assignment_rejected_witness :
    ((2 : Nat) ≠ (1 : Nat) ∧ (2 : Nat) ≠ (1 : Nat))
    ∧ (((∃ e, TenantMembership.add_role ⟨5, 9, 1, [4], true⟩ ⟨6, 2, true, []⟩
          = Except.error e)
        ∧ TenantMembership.applyAddRole ⟨5, 9, 1, [4], true⟩ ⟨6, 2, true, []⟩
          = ⟨5, 9, 1, [4], true⟩)
      ∧ ((∃ e, Role.add_permission ⟨4, 1, true, [3]⟩ ⟨8, 2, "orders.view_order"⟩
          = Except.error e)
        ∧ Role.applyAddPermission ⟨4, 1, true, [3]⟩ ⟨8, 2, "orders.view_order"⟩
          = ⟨4, 1, true, [3]⟩)) :=
  ⟨⟨by decide, by decide⟩,
    cross_tenant_assignment_rejected ⟨5, 9, 1, [4], true⟩ ⟨6, 2, true, []⟩
      ⟨4, 1, true, [3]⟩ ⟨8, 2, "orders.view_order"⟩ (by decide) (by decide)⟩

/-- The `unique_together (user, tenant)` constraint on the membership table:
no two rows (at distinct positions) share the same (user, tenant) pair. -/
def membershipKeysUnique : List TenantMembership → Bool
  | [] => true
  | m :: ms =>
    ms.all (fun m2 => !(m.user_id == m2.user_id && m.tenant_id == m2.tenant_id))
      && membershipKeysUnique ms

/-- Under the uniqueness constraint, the `.get(user=..., tenant=...,
is_active=True)` lookup finds exactly the row the existential describes. -/
theorem find?_active_membership (u : User) (t : Tenant) :
    ∀ (l : List TenantMembership), membershipKeysUnique l = true →
    ∀ m : TenantMembership,
      m ∈ l → m.user_id = u.id → m.tenant_id = t.id → m.is_active = true →
      l.find? (fun m2 => m2.user_id == u.id && m2.tenant_id == t.id && m2.is_active)
        = some m := by
  intro l
  induction l with
  | nil => intro _ m hm; exact absurd hm (List.not_mem_nil m)
  | cons a l ih =>
    intro huniq m hm h1 h2 h3
    rw [membershipKeysUnique] at huniq
    simp only [Bool.and_eq_true] at huniq
    obtain ⟨hall, htail⟩ := huniq
    have huniq1 : a.user_id = m.user_id → a.tenant_id = m.tenant_id → m ∉ l := by
      intro hu ht hml
      simp only [List.all_eq_true] at hall
      have := hall m hml
      simp only [Bool.not_eq_true', Bool.and_eq_false_iff, beq_eq_false_iff_ne] at this
      cases this with
      | inl h => exact h hu
      | inr h => exact h ht
    cases hpa : (a.user_id == u.id && a.tenant_id == t.id && a.is_active) with
    | true =>
      rcases List.mem_cons.mp hm with h | h
      · rw [h]
        simp [List.find?_cons, hpa]
      · simp only [Bool.and_eq_true, beq_iff_eq] at hpa
        exact absurd h (huniq1 (hpa.1.1.trans h1.symm) (hpa.1.2.trans h2.symm))
    | false =>
      rcases List.mem_cons.mp hm with h | h
      · rw [← h] at hpa
        rw [h1, h2, h3] at hpa
        simp at hpa
      · rw [List.find?_cons]
        simp only [hpa]
        exact ih htail m h h1 h2 h3

/-- Characterization of `getActiveMembership` on a store satisfying the
`unique_together` constraint. -/
theorem getActiveMembership_eq_some (st : Store) (u : User) (t : Tenant)
    (huniq : membershipKeysUnique st.memberships = true) (m : TenantMembership) :
    getActiveMembership st u t = some m ↔
      m ∈ st.memberships ∧ m.user_id = u.id ∧ m.tenant_id = t.id ∧ m.is_active = true := by
  constructor
  · intro h
    have hmem := List.mem_of_find?_eq_some h
    have hp := List.find?_some h
    simp only [Bool.and_eq_true, beq_iff_eq] at hp
    exact ⟨hmem, hp.1.1, hp.1.2, hp.2⟩
  · rintro ⟨hmem, h1, h2, h3⟩
    exact find?_active_membership u t st.memberships huniq m hmem h1 h2 h3

/-- Characterization of `TenantMembership.has_permission`: some active role
row assigned to the membership is joined to a permission row carrying the
requested codename. -/
theorem has_permission_iff (st : Store) (m : TenantMembership) (cn : String) :
    m.has_permission st cn = true ↔
      ∃ r ∈ st.roles, r.id ∈ m.role_ids ∧ r.is_active = true ∧
        ∃ p ∈ st.permissions, p.id ∈ r.perm_ids ∧ p.codename = cn := by
  simp [TenantMembership.has_permission, List.any_eq_true, List.contains,
    Bool.and_eq_true, List.elem_iff, and_assoc]

/-- Characterization of `TenantMembership.get_permissions`: the codenames
reachable through the membership's active roles, as a deduplicated set. -/
theorem get_permissions_mem (st : Store) (m : TenantMembership) (cn : String) :
    cn ∈ m.get_permissions st ↔
      ∃ r ∈ st.roles, r.id ∈ m.role_ids ∧ r.is_active = true ∧
        ∃ p ∈ st.permissions, p.id ∈ r.perm_ids ∧ p.codename = cn := by
  simp only [TenantMembership.get_permissions, List.mem_toFinset, List.mem_flatMap,
    List.mem_filter, List.mem_map, List.contains, Bool.and_eq_true, List.elem_iff]
  constructor
  · rintro ⟨r, ⟨hr, hrid, hact⟩, p, ⟨hp, hpid⟩, hcn⟩
    exact ⟨r, hr, hrid, hact, p, hp, hpid, hcn⟩
  · rintro ⟨r, hr, hrid, hact, p, hp, hpid, hcn⟩
    exact ⟨r, ⟨hr, hrid, hact⟩, p, ⟨hp, hpid⟩, hcn⟩

/-- Claim C2: for a non-superuser (or with the bypass disabled), a direct
`check_permission` call grants exactly when the tenant is present and active,
an active membership row exists for the (user, tenant) pair, and some role of
that membership is both active and assigned a permission with exactly the
requested codename — so a permission reachable only through a deactivated
role is never granted. -/
theorem check_permission_characterization (s : Settings) (st : Store) (u : User)
    (tenant : Option Tenant) (cn : String)
    (hnb : s.SUPERUSER_BYPASS = false ∨ u.is_superuser = false)
    (huniq : membershipKeysUnique st.memberships = true) :
    check_permission s st u tenant cn none = true ↔
      ∃ t, tenant = some t ∧ t.is_active = true ∧
        ∃ m ∈ st.memberships, m.user_id = u.id ∧ m.tenant_id = t.id ∧ m.is_active = true ∧
          ∃ r ∈ st.roles, r.id ∈ m.role_ids ∧ r.is_active = true ∧
            ∃ p ∈ st.permissions, p.id ∈ r.perm_ids ∧ p.codename = cn := by
  have hby : (s.SUPERUSER_BYPASS && u.is_superuser) = false := by
    cases hnb with
    | inl h => simp [h]
    | inr h => simp [h]
  cases tenant with
  | none => simp [check_permission, hby]
  | some t =>
    by_cases hact : t.is_active = true
    · cases hm : getActiveMembership st u t with
      | none =>
        simp only [check_permission, hby, Bool.false_eq_true, if_false, hact,
          Bool.not_true, hm]
        constructor
        · intro h; exact absurd h (by simp)
        · rintro ⟨t', ht', hta, m, hmem, h1, h2, h3, hrest⟩
          injection ht' with heq
          subst heq
          rw [(getActiveMembership_eq_some st u t huniq m).mpr ⟨hmem, h1, h2, h3⟩] at hm
          exact absurd hm (by simp)
      | some m =>
        have hprops := (getActiveMembership_eq_some st u t huniq m).mp hm
        simp only [check_permission, hby, Bool.false_eq_true, if_false, hact,
          Bool.not_true, hm]
        constructor
        · intro h
          exact ⟨t, rfl, hact, m, hprops.1, hprops.2.1, hprops.2.2.1, hprops.2.2.2,
            (has_permission_iff st m cn).mp h⟩
        · rintro ⟨t', ht', hta, m', hmem, h1, h2, h3, hrest⟩
          injection ht' with heq
          subst heq
          have hsome : getActiveMembership st u t = some m' :=
            (getActiveMembership_eq_some st u t huniq m').mpr ⟨hmem, h1, h2, h3⟩
          rw [hm] at hsome
          injection hsome with hmm
          rw [hmm]
          exact (has_permission_iff st m' cn).mpr hrest
    · simp only [Bool.not_eq_true] at hact
      simp only [check_permission, hby, Bool.false_eq_true, if_false, hact]
      constructor
      · intro h; exact absurd h (by simp)
      · rintro ⟨t', ht', hta, _⟩
        injection ht' with heq
        subst heq
        rw [hact] at hta
        exact absurd hta (by simp)

/-- Witness for claim C2: in a one-tenant store where user 2 holds the
permission `orders.view_order` through an active role of an active
membership, the characterization holds at that concrete input. -/
theorem check_permission_characterization_witness :
    (((⟨false, true⟩ : Settings).SUPERUSER_BYPASS = false ∨
        (⟨2, false, true⟩ : User).is_superuser = false)
     ∧ membershipKeysUnique (Store.memberships
        ⟨[⟨1, "acme", none, true⟩], [⟨5, 2, 1, [4], true⟩],
         [⟨4, 1, true, [3]⟩], [⟨3, 1, "orders.view_order"⟩]⟩) = true)
    ∧ (check_permission ⟨false, true⟩
        ⟨[⟨1, "acme", none, true⟩], [⟨5, 2, 1, [4], true⟩],
         [⟨4, 1, true, [3]⟩], [⟨3, 1, "orders.view_order"⟩]⟩
        ⟨2, false, true⟩ (some ⟨1, "acme", none, true⟩) ("orders.view_order") none = true ↔
      ∃ t, (some ⟨1, "acme", none, true⟩ : Option Tenant) = some t ∧ t.is_active = true ∧
        ∃ m ∈ (Store.memberships
          ⟨[⟨1, "acme", none, true⟩], [⟨5, 2, 1, [4], true⟩],
           [⟨4, 1, true, [3]⟩], [⟨3, 1, "orders.view_order"⟩]⟩),
          m.user_id = (User.id ⟨2, false, true⟩) ∧ m.tenant_id = t.id ∧ m.is_active = true ∧
          ∃ r ∈ (Store.roles
            ⟨[⟨1, "acme", none, true⟩], [⟨5, 2, 1, [4], true⟩],
             [⟨4, 1, true, [3]⟩], [⟨3, 1, "orders.view_order"⟩]⟩),
            r.id ∈ m.role_ids ∧ r.is_active = true ∧
            ∃ p ∈ (Store.permissions
              ⟨[⟨1, "acme", none, true⟩], [⟨5, 2, 1, [4], true⟩],
               [⟨4, 1, true, [3]⟩], [⟨3, 1, "orders.view_order"⟩]⟩),
              p.id ∈ r.perm_ids ∧ p.codename = ("orders.view_order")) :=
  ⟨⟨Or.inl rfl, by decide⟩,
    check_permission_characterization ⟨false, true⟩
      ⟨[⟨1, "acme", none, true⟩], [⟨5, 2, 1, [4], true⟩],
       [⟨4, 1, true, [3]⟩], [⟨3, 1, "orders.view_order"⟩]⟩
      ⟨2, false, true⟩ (some ⟨1, "acme", none, true⟩) ("orders.view_order")
      (Or.inl rfl) (by decide)⟩

/-- Claim C3: `PermissionChecker.get_user_permissions` returns, under the
superuser bypass, exactly the enumerated set of codenames of the permissions
owned by the tenant; otherwise the deduplicated union of codenames across the
active membership's active roles (permission-less roles contribute nothing),
which is the empty set when no active membership row exists. -/
theorem get_user_permissions_characterization (s : Settings) (st : Store)
    (u : User) (t : Tenant)
    (huniq : membershipKeysUnique st.memberships = true) :
    (s.SUPERUSER_BYPASS = true → u.is_superuser = true → ∀ cn,
      cn ∈ get_user_permissions s st u t none ↔
        ∃ p ∈ st.permissions, p.tenant_id = t.id ∧ p.codename = cn)
    ∧ ((s.SUPERUSER_BYPASS = false ∨ u.is_superuser = false) → ∀ cn,
      cn ∈ get_user_permissions s st u t none ↔
        ∃ m ∈ st.memberships, m.user_id = u.id ∧ m.tenant_id = t.id ∧ m.is_active = true ∧
          ∃ r ∈ st.roles, r.id ∈ m.role_ids ∧ r.is_active = true ∧
            ∃ p ∈ st.permissions, p.id ∈ r.perm_ids ∧ p.codename = cn) := by
  constructor
  · intro hb hsu cn
    simp only [get_user_permissions, hb, hsu, Bool.and_self, if_true,
      List.mem_toFinset, List.mem_map, List.mem_filter, beq_iff_eq]
    constructor
    · rintro ⟨p, ⟨hp, hpt⟩, hcn⟩
      exact ⟨p, hp, hpt, hcn⟩
    · rintro ⟨p, hp, hpt, hcn⟩
      exact ⟨p, ⟨hp, hpt⟩, hcn⟩
  · intro hnb cn
    have hby : (s.SUPERUSER_BYPASS && u.is_superuser) = false := by
      cases hnb with
      | inl h => simp [h]
      | inr h => simp [h]
    cases hm : getActiveMembership st u t with
    | none =>
      simp only [get_user_permissions, hby, Bool.false_eq_true, if_false, hm]
      constructor
      · intro h; exact absurd h (Finset.not_mem_empty cn)
      · rintro ⟨m, hmem, h1, h2, h3, hrest⟩
        rw [(getActiveMembership_eq_some st u t huniq m).mpr ⟨hmem, h1, h2, h3⟩] at hm
        exact absurd hm (by simp)
    | some m =>
      have hprops := (getActiveMembership_eq_some st u t huniq m).mp hm
      simp only [get_user_permissions, hby, Bool.false_eq_true, if_false, hm]
      constructor
      · intro h
        exact ⟨m, hprops.1, hprops.2.1, hprops.2.2.1, hprops.2.2.2,
          (get_permissions_mem st m cn).mp h⟩
      · rintro ⟨m', hmem, h1, h2, h3, hrest⟩
        have hsome : getActiveMembership st u t = some m' :=
          (getActiveMembership_eq_some st u t huniq m').mpr ⟨hmem, h1, h2, h3⟩
        rw [hm] at hsome
        injection hsome with hmm
        rw [hmm]
        exact (get_permissions_mem st m' cn).mpr hrest

/-- Witness for claim C3: in a one-tenant store whose user 2 has one active
membership with one active role holding the single tenant permission, both
characterizations hold at that concrete input. -/
theorem get_user_permissions_characterization_witness :
    membershipKeysUnique (Store.memberships
        ⟨[⟨1, "acme", none, true⟩], [⟨5, 2, 1, [4], true⟩],
         [⟨4, 1, true, [3]⟩], [⟨3, 1, "orders.view_order"⟩]⟩) = true
    ∧ (((⟨true, true⟩ : Settings).SUPERUSER_BYPASS = true →
        (⟨2, true, true⟩ : User).is_superuser = true → ∀ cn,
        cn ∈ get_user_permissions ⟨true, true⟩
          ⟨[⟨1, "acme", none, true⟩], [⟨5, 2, 1, [4], true⟩],
           [⟨4, 1, true, [3]⟩], [⟨3, 1, "orders.view_order"⟩]⟩
          ⟨2, true, true⟩ ⟨1, "acme", none, true⟩ none ↔
          ∃ p ∈ (Store.permissions
            ⟨[⟨1, "acme", none, true⟩], [⟨5, 2, 1, [4], true⟩],
             [⟨4, 1, true, [3]⟩], [⟨3, 1, "orders.view_order"⟩]⟩),
            p.tenant_id = (Tenant.id ⟨1, "acme", none, true⟩) ∧ p.codename = cn)) :=
  ⟨by decide,
    (get_user_permissions_characterization ⟨true, true⟩
      ⟨[⟨1, "acme", none, true⟩], [⟨5, 2, 1, [4], true⟩],
       [⟨4, 1, true, [3]⟩], [⟨3, 1, "orders.view_order"⟩]⟩
      ⟨2, true, true⟩ ⟨1, "acme", none, true⟩ (by decide)).1⟩

/-- The codenames a short-circuiting all-mode loop actually evaluates: every
codename up to and including the first one the check denies. -/
def evaluatedPerms (f : String → Bool) : List String → List String
  | [] => []
  | p :: ps => if f p then p :: evaluatedPerms f ps else [p]

/-- One step of the `TenantUser.membership` property: the observed value is
`membershipVal` and the updated instance stores exactly that value. -/
theorem membership_run (tu : TenantUser) (st : Store) :
    tu.membership st = (tu.membershipVal st,
      { tu with membership_cache := tu.membershipVal st }) := by
  cases tu with
  | mk u t pc mc imc =>
    cases mc with
    | some m => rfl
    | none =>
      simp only [TenantUser.membership, TenantUser.membershipVal]
      cases getActiveMembership st u t <;> rfl

/-- `membershipVal` is stable under the cache write the property performs. -/
theorem membershipVal_update (tu : TenantUser) (st : Store) :
    TenantUser.membershipVal { tu with membership_cache := tu.membershipVal st } st
      = tu.membershipVal st := by
  cases tu with
  | mk u t pc mc imc =>
    cases mc with
    | some m => rfl
    | none =>
      simp only [TenantUser.membershipVal]
      cases getActiveMembership st u t <;> rfl

/-- Explicit form of one `TenantUser.has_perm` call: the outcome is the
`check_permission` verdict against the memoized membership, the audit trace
is the single `audit_log` call, and only the membership cache changes. -/
theorem has_perm_run (tu : TenantUser) (s : Settings) (st : Store) (perm : String) :
    tu.has_perm s st perm =
      (check_permission s st tu.user (some tu.tenant) perm (tu.membershipVal st),
       audit_log s ("permission_check") (some perm)
         (check_permission s st tu.user (some tu.tenant) perm (tu.membershipVal st)),
       { tu with membership_cache := tu.membershipVal st }) := by
  rw [TenantUser.has_perm, membership_run]

/-- Trace shape of `TenantUser.has_perms` with auditing enabled: one
`permission_check` event per evaluated codename, each tagged with that
codename and its own outcome. -/
theorem has_perms_trace (s : Settings) (st : Store) (haud : s.AUDIT_ENABLED = true)
    (u : User) (t : Tenant) (mv : Option TenantMembership) :
    ∀ (perms : List String) (tu : TenantUser),
      tu.user = u → tu.tenant = t → tu.membershipVal st = mv →
      (TenantUser.has_perms s st tu perms).2.1 =
        (evaluatedPerms (fun p => check_permission s st u (some t) p mv) perms).map
          (fun p => ⟨"permission_check", some p, check_permission s st u (some t) p mv⟩) := by
  intro perms
  induction perms with
  | nil => intro tu _ _ _; rfl
  | cons p ps ih =>
    intro tu hu ht hmv
    subst hu
    subst ht
    subst hmv
    rw [TenantUser.has_perms, has_perm_run]
    have hnext := ih { tu with membership_cache := tu.membershipVal st }
      rfl rfl (membershipVal_update tu st)
    cases hr : check_permission s st tu.user (some tu.tenant) p (tu.membershipVal st) with
    | true =>
      simp [evaluatedPerms, hr, hnext, audit_log, haud]
    | false =>
      simp [evaluatedPerms, hr, audit_log, haud]

/-- The audit trace of `PermissionChecker.has_any_permission` is empty: its
inner checks go through `check_permission`, which never calls `audit_log`. -/
theorem has_any_permissionEv_trace (s : Settings) (st : Store) (u : User)
    (tenant : Option Tenant) (membership : Option TenantMembership) :
    ∀ perms : List String,
      (has_any_permissionEv s st u tenant membership perms).2 = [] := by
  intro perms
  induction perms with
  | nil => rfl
  | cons p ps ih =>
    rw [has_any_permissionEv]
    cases hr : check_permission s st u tenant p membership with
    | true => simp [check_permissionEv, hr]
    | false => simp [check_permissionEv, hr, ih]

/-- The audit trace of `PermissionChecker.has_all_permissions` is empty for
the same reason. -/
theorem has_all_permissionsEv_trace (s : Settings) (st : Store) (u : User)
    (tenant : Option Tenant) (membership : Option TenantMembership) :
    ∀ perms : List String,
      (has_all_permissionsEv s st u tenant membership perms).2 = [] := by
  intro perms
  induction perms with
  | nil => rfl
  | cons p ps ih =>
    rw [has_all_permissionsEv]
    cases hr : check_permission s st u tenant p membership with
    | true => simp [check_permissionEv, hr, ih]
    | false => simp [check_permissionEv, hr]

/-- Counterexample to claim C5: with auditing enabled, a
`PermissionChecker.has_any_permission` query over a single codename performs
one inner check — here even a granted one — yet emits zero audit events
rather than exactly one. -/
theorem any_mode_check_emits_no_audit_event :
    ((⟨true, true⟩ : Settings).AUDIT_ENABLED = true
      ∧ (has_any_permissionEv ⟨true, true⟩
          ⟨[⟨1, "acme", none, true⟩], [⟨5, 2, 1, [4], true⟩],
           [⟨4, 1, true, [3]⟩], [⟨3, 1, "orders.view_order"⟩]⟩
          ⟨2, false, true⟩ (some ⟨1, "acme", none, true⟩) none
          ["orders.view_order"]).1 = true)
    ∧ ¬((has_any_permissionEv ⟨true, true⟩
          ⟨[⟨1, "acme", none, true⟩], [⟨5, 2, 1, [4], true⟩],
           [⟨4, 1, true, [3]⟩], [⟨3, 1, "orders.view_order"⟩]⟩
          ⟨2, false, true⟩ (some ⟨1, "acme", none, true⟩) none
          ["orders.view_order"]).2.length = 1) := by
  exact ⟨⟨rfl, by decide⟩, by decide⟩

/-- Claim C5 (amended): single-permission checks made through
`TenantUser.has_perm` — including each check `TenantUser.has_perms`
evaluates — emit exactly one audit event tagged with the checked codename and
the boolean outcome, granted or denied, when auditing is enabled; the
`PermissionChecker` any-mode and all-mode queries call `check_permission`
directly, which contains no `audit_log` call, so their inner checks emit no
audit events at all. -/
theorem audit_event_emission (s : Settings) (st : Store) (u : User)
    (tenant : Option Tenant) (membership : Option TenantMembership)
    (perms : List String) (tu : TenantUser) (perm : String)
    (haud : s.AUDIT_ENABLED = true) :
    ((tu.has_perm s st perm).2.1 =
      [⟨"permission_check", some perm, (tu.has_perm s st perm).1⟩])
    ∧ ((TenantUser.has_perms s st tu perms).2.1 =
        (evaluatedPerms
            (fun p => check_permission s st tu.user (some tu.tenant) p (tu.membershipVal st))
            perms).map
          (fun p => ⟨"permission_check", some p,
            check_permission s st tu.user (some tu.tenant) p (tu.membershipVal st)⟩))
    ∧ (has_any_permissionEv s st u tenant membership perms).2 = []
    ∧ (has_all_permissionsEv s st u tenant membership perms).2 = [] := by
  refine ⟨?_, ?_, has_any_permissionEv_trace s st u tenant membership perms,
    has_all_permissionsEv_trace s st u tenant membership perms⟩
  · rw [has_perm_run]
    simp [audit_log, haud]
  · exact has_perms_trace s st haud tu.user tu.tenant (tu.membershipVal st)
      perms tu rfl rfl rfl

/-- Witness for the amended claim C5: a concrete `TenantUser` holding the
permission, with auditing enabled. -/
theorem audit_event_emission_witness :
    ((⟨true, true⟩ : Settings).AUDIT_ENABLED = true)
    ∧ ((TenantUser.init ⟨2, false, true⟩ ⟨1, "acme", none, true⟩).has_perm
        ⟨true, true⟩
        ⟨[⟨1, "acme", none, true⟩], [⟨5, 2, 1, [4], true⟩],
         [⟨4, 1, true, [3]⟩], [⟨3, 1, "orders.view_order"⟩]⟩
        ("orders.view_order")).2.1 =
      [⟨"permission_check", some ("orders.view_order"),
        ((TenantUser.init ⟨2, false, true⟩ ⟨1, "acme", none, true⟩).has_perm
          ⟨true, true⟩
          ⟨[⟨1, "acme", none, true⟩], [⟨5, 2, 1, [4], true⟩],
           [⟨4, 1, true, [3]⟩], [⟨3, 1, "orders.view_order"⟩]⟩
          ("orders.view_order")).1⟩] :=
  ⟨rfl,
    (audit_event_emission ⟨true, true⟩
      ⟨[⟨1, "acme", none, true⟩], [⟨5, 2, 1, [4], true⟩],
       [⟨4, 1, true, [3]⟩], [⟨3, 1, "orders.view_order"⟩]⟩
      ⟨2, false, true⟩ (some ⟨1, "acme", none, true⟩) none []
      (TenantUser.init ⟨2, false, true⟩ ⟨1, "acme", none, true⟩)
      ("orders.view_order") rfl).1⟩

/-- Counterexample to claim C6: a tenant written through the model's plain
write path (`Tenant.save`, which defines no override and therefore never
invokes `clean`) keeps an upper-case slug and domain — the stored forms are
not the lowercase normalizations, so normalization is not applied on every
write. -/
theorem tenant_save_skips_normalization :
    (Tenant.save ⟨1, "ACME", some ("Example.COM"), true⟩).slug = "ACME"
    ∧ (Tenant.save ⟨1, "ACME", some ("Example.COM"), true⟩).slug ≠
        pyLower (Tenant.save ⟨1, "ACME", some ("Example.COM"), true⟩).slug
    ∧ (Tenant.save ⟨1, "ACME", some ("Example.COM"), true⟩).domain ≠
        ((Tenant.save ⟨1, "ACME", some ("Example.COM"), true⟩).domain).map pyLower := by
  refine ⟨rfl, ?_, ?_⟩ <;> decide

/-- Claim C6 (amended): lowercase normalization of the slug and of the
domain (when present) is performed by `Tenant.clean`, so any write path that
invokes `clean`/`full_clean` (model validation, admin forms) stores them in
lowercase; the plain `Tenant.save` path does not invoke `clean`, so only
clean-invoking writes are normalized. -/
theorem tenant_clean_normalizes (t : Tenant) :
    (Tenant.clean t).slug = pyLower t.slug
    ∧ (Tenant.clean t).domain = t.domain.map pyLower := by
  by_cases hs : t.slug = ""
  · cases hd : t.domain with
    | none => simp [Tenant.clean, hs, hd, pyLower]
    | some d =>
      by_cases hde : d = ""
      · simp [Tenant.clean, hs, hd, hde, pyLower]
      · simp [Tenant.clean, hs, hd, hde, pyLower]
  · cases hd : t.domain with
    | none => simp [Tenant.clean, hs, hd, pyLower]
    | some d =>
      by_cases hde : d = ""
      · simp [Tenant.clean, hs, hd, hde, pyLower]
      · simp [Tenant.clean, hs, hd, hde, pyLower]

/-- Splitting a dot-free segment followed by a dot yields that segment as the
leftmost part. -/
theorem splitOnDot_append (l m : List Char) (hl : '.' ∉ l) :
    splitOnDot (l ++ '.' :: m) = l :: splitOnDot m := by
  induction l with
  | nil => simp [splitOnDot]
  | cons c cs ih =>
    have hc : ¬(c = '.') := fun h => hl (by simp [h])
    have ih' := ih (fun h => hl (List.mem_cons_of_mem _ h))
    simp only [List.cons_append, splitOnDot, hc, if_false, List.append_eq]
    rw [ih']

/-- Lowercasing distributes over concatenation. -/
theorem lowerStr_append (a b : List Char) :
    lowerStr (a ++ b) = lowerStr a ++ lowerStr b := by
  simp [lowerStr]

/-- Lowercasing leaves a leading dot in place. -/
theorem lowerStr_dot_cons (b : List Char) :
    lowerStr ('.' :: b) = '.' :: lowerStr b := by
  simp [lowerStr]

/-- Core computation of `_extract_subdomain` on a host that ends with
`.{base}` verbatim: the suffix test passes and the slice keeps exactly the
part before that suffix. -/
theorem extract_subdomain_append (base x : List Char) :
    extract_subdomain base (x ++ '.' :: base) =
      (let sub := lowerStr x
       let sub2 := if sub.contains '.' then (splitOnDot sub).headD [] else sub
       if sub2 = [] then none else some sub2) := by
  have hlow : lowerStr (x ++ '.' :: base) = lowerStr x ++ '.' :: lowerStr base := by
    rw [lowerStr_append, lowerStr_dot_cons]
  have hsuf : ('.' :: lowerStr base).isSuffixOf (lowerStr x ++ '.' :: lowerStr base)
      = true := by
    rw [List.isSuffixOf_iff_suffix]
    exact ⟨lowerStr x, rfl⟩
  have hlen : (lowerStr x ++ '.' :: lowerStr base).length - ((lowerStr base).length + 1)
      = (lowerStr x).length := by
    simp
  have htake : (lowerStr x ++ '.' :: lowerStr base).take
      ((lowerStr x ++ '.' :: lowerStr base).length - ((lowerStr base).length + 1))
      = lowerStr x := by
    rw [hlen]
    exact List.take_left _ _
  unfold extract_subdomain
  simp only [hlow, hsuf, if_true]
  rw [htake]

/-- `takeWhile` never lengthens a list (used for port stripping). -/
theorem takeWhile_length_le (p : Char → Bool) :
    ∀ l : List Char, (l.takeWhile p).length ≤ l.length := by
  intro l
  induction l with
  | nil => simp
  | cons c cs ih =>
    rw [List.takeWhile_cons]
    cases p c with
    | true => simpa using ih
    | false => simp

/-- Claim C7: with configured base domain `B`, the subdomain strategy maps a
host of the form `<label>.B` or `<label>.<more>.B` (case-insensitively) to the
leftmost label; a host whose leading label is empty, a host that (after port
stripping and lowercasing) does not end with `.B`, and the host equal to `B`
itself all fail resolution with a tenant-not-found error. -/
theorem subdomain_resolution (st : Store) (base label more : List Char)
    (hne : lowerStr label ≠ []) (hnd : '.' ∉ lowerStr label) :
    (extract_subdomain base (label ++ '.' :: base) = some (lowerStr label))
    ∧ (extract_subdomain base (label ++ '.' :: more ++ '.' :: base)
        = some (lowerStr label))
    ∧ (extract_subdomain base ('.' :: base) = none)
    ∧ (extract_subdomain base ('.' :: more ++ '.' :: base) = none)
    ∧ (∀ host, ('.' :: lowerStr base).isSuffixOf (lowerStr (stripPort host)) = false →
        subdomain_resolve st base host
          = Except.error (ResolveErr.notFound (stripPort host)))
    ∧ (∀ host, extract_subdomain base (stripPort host) = none →
        subdomain_resolve st base host
          = Except.error (ResolveErr.notFound (stripPort host)))
    ∧ (subdomain_resolve st base base
        = Except.error (ResolveErr.notFound (stripPort base))) := by
  have hglue : ∀ host, extract_subdomain base (stripPort host) = none →
      subdomain_resolve st base host
        = Except.error (ResolveErr.notFound (stripPort host)) := by
    intro host hex
    simp [subdomain_resolve, hex]
  have hnosuf : ∀ host,
      ('.' :: lowerStr base).isSuffixOf (lowerStr (stripPort host)) = false →
      extract_subdomain base (stripPort host) = none := by
    intro host hsuf
    unfold extract_subdomain
    simp only [hsuf, Bool.false_eq_true, if_false]
  refine ⟨?_, ?_, ?_, ?_, fun host h => hglue host (hnosuf host h), hglue, ?_⟩
  · rw [extract_subdomain_append]
    have hc : (lowerStr label).contains '.' = false := by simp [List.contains, hnd]
    simp only [hc, Bool.false_eq_true, if_false]
    rw [if_neg hne]
  · have hshape : label ++ '.' :: more ++ '.' :: base
        = (label ++ '.' :: more) ++ '.' :: base := by simp
    rw [hshape, extract_subdomain_append]
    have hlx : lowerStr (label ++ '.' :: more)
        = lowerStr label ++ '.' :: lowerStr more := by
      rw [lowerStr_append, lowerStr_dot_cons]
    have hc : (lowerStr label ++ '.' :: lowerStr more).contains '.' = true := by
      simp [List.contains]
    simp only [hlx, hc, if_true]
    rw [splitOnDot_append _ _ hnd]
    simp [hne]
  · have hzero : ('.' : Char) :: base = [] ++ '.' :: base := rfl
    rw [hzero, extract_subdomain_append]
    simp [lowerStr]
  · rw [extract_subdomain_append]
    rw [lowerStr_dot_cons]
    have hc : (('.' : Char) :: lowerStr more).contains '.' = true := by
      simp [List.contains]
    simp only [hc, if_true]
    have hzero : ('.' : Char) :: lowerStr more = [] ++ '.' :: lowerStr more := rfl
    rw [hzero, splitOnDot_append _ _ (by simp)]
    simp
  · apply hglue
    apply hnosuf
    cases hsuf : ('.' :: lowerStr base).isSuffixOf (lowerStr (stripPort base)) with
    | false => rfl
    | true =>
      exfalso
      have hle := (List.isSuffixOf_iff_suffix.mp hsuf).length_le
      have h1 : (lowerStr (stripPort base)).length ≤ base.length := by
        have := takeWhile_length_le (fun c => c ≠ ':') base
        simpa [lowerStr, stripPort] using this
      simp only [List.length_cons, lowerStr, List.length_map] at hle h1
      omega

/-- Witness for claim C7: base domain `example.com` with host
`acme.example.com` extracts the slug `acme`; the host `example.com` itself
fails resolution with a tenant-not-found error. -/
theorem subdomain_resolution_witness :
    (lowerStr ("acme".data) ≠ [] ∧ ('.' ∉ lowerStr ("acme".data)))
    ∧ extract_subdomain ("example.com".data) ("acme".data ++ '.' :: "example.com".data)
        = some (lowerStr ("acme".data))
    ∧ subdomain_resolve ⟨[], [], [], []⟩ ("example.com".data) ("example.com".data)
        = Except.error (ResolveErr.notFound (stripPort ("example.com".data))) :=
  ⟨⟨by decide, by decide⟩,
    (subdomain_resolution ⟨[], [], [], []⟩ ("example.com".data) ("acme".data) []
      (by decide) (by decide)).1,
    (subdomain_resolution ⟨[], [], [], []⟩ ("example.com".data) ("acme".data) []
      (by decide) (by decide)).2.2.2.2.2.2⟩

end TenantAuthx
